import Mathlib

/-!
Shallow embedding of soap_injector.py and verification of the
specification claims about it. The embedding covers the template
variable substitution engine, the variable generator, the dispatcher
outcome classification, the request construction and the batch loop
with its statistics. Definitions follow the Python source; where the
source delegates to a library routine, the routine is modelled with
the semantics Python gives it on the inputs the program uses.
-/

set_option autoImplicit false

namespace SoapInj

/-- Executable check that the first character list is an initial
segment of the second, the primitive used to locate a pattern
occurrence at the head of a string slice, as Python string search
does. -/
def isPrefL : List Char → List Char → Bool
  | [], _ => true
  | _ :: _, [] => false
  | a :: as, b :: bs => a == b && isPrefL as bs

/-- Executable occurrence test: the pattern occurs somewhere in the
text, at the head or further right. -/
def containsL (pat : List Char) : List Char → Bool
  | [] => isPrefL pat []
  | c :: rest => isPrefL pat (c :: rest) || containsL pat rest

/-- Python str.replace on character lists: scan left to right and
replace every non overlapping occurrence of pat by rep, continuing
after the end of the replaced occurrence. The program only ever calls
this with a pattern of shape open brace, open brace, name, close
brace, close brace, which is nonempty, so fuel equal to the text
length is enough; the unreachable empty pattern case is modelled as
leaving the text unchanged. -/
def replaceAllL : Nat → List Char → List Char → List Char → List Char
  | 0, s, _, _ => s
  | _ + 1, [], _, _ => []
  | fuel + 1, c :: rest, pat, rep =>
    if isPrefL pat (c :: rest) && !pat.isEmpty then
      rep ++ replaceAllL fuel (List.drop (pat.length - 1) rest) pat rep
    else
      c :: replaceAllL fuel rest pat rep

/-- Python str.replace lifted to String, as invoked by the source on
each loop iteration of the substitution. -/
def strReplace (s pat rep : String) : String :=
  ⟨replaceAllL s.data.length s.data pat.data rep.data⟩

/-- Embedding of SOAPInjector replace variables: fold over the
mapping items in insertion order and replace the fully delimited
placeholder of each key by its value, exactly the source loop
performing result = result.replace(pattern, value) with pattern the
key wrapped in double braces. -/
def replace_variables (content : String) (vars : List (String × String)) : String :=
  vars.foldl (fun acc kv => strReplace acc ("\x7b\x7b" ++ kv.1 ++ "\x7d\x7d") kv.2) content

/-- Modelled from the spec: the pieces of the text obtained by
cutting at every non overlapping occurrence of the pattern, scanning
left to right, with the same branch structure as replaceAllL. -/
def splitAllL : Nat → List Char → List Char → List (List Char)
  | 0, s, _ => [s]
  | _ + 1, [], _ => [[]]
  | fuel + 1, c :: rest, pat =>
    if isPrefL pat (c :: rest) && !pat.isEmpty then
      [] :: splitAllL fuel (List.drop (pat.length - 1) rest) pat
    else
      match splitAllL fuel rest pat with
      | [] => [[c]]
      | p :: ps => (c :: p) :: ps

/-- Join pieces, inserting the separator between consecutive ones. -/
def intercalateL (sep : List Char) : List (List Char) → List Char
  | [] => []
  | [x] => x
  | x :: y :: ys => x ++ sep ++ intercalateL sep (y :: ys)

/-- Modelled from the spec: a genuinely single pass replacement, the
pieces of the original text around the pattern occurrences joined by
the replacement value spliced in verbatim and never rescanned. -/
def singlePassReplace (s pat rep : String) : String :=
  ⟨intercalateL rep.data (splitAllL s.data.length s.data pat.data)⟩

/-- Decimal digit character, used to model Python number formatting. -/
def digitChar (d : Nat) : Char := Char.ofNat (48 + d)

/-- Decimal digits of a natural number, most significant first, with
fuel bounding the recursion depth. -/
def natDigitsGo : Nat → Nat → List Char
  | 0, _ => []
  | f + 1, n => if n < 10 then [digitChar n] else natDigitsGo f (n / 10) ++ [digitChar (n % 10)]

/-- Decimal digits of a natural number, as Python str of an int. -/
def natDigits (n : Nat) : List Char := natDigitsGo (n + 1) n

/-- Zero padding to a minimum width, as the strftime two and six
digit fields pad their values. -/
def zeroPad (w n : Nat) : List Char :=
  List.replicate (w - (natDigits n).length) '0' ++ natDigits n

/-- Two digit zero padded decimal field of strftime. -/
def pad2 (n : Nat) : String := ⟨zeroPad 2 n⟩

/-- Six digit zero padded microsecond field of strftime. -/
def pad6 (n : Nat) : String := ⟨zeroPad 6 n⟩

/-- Decimal rendering of a natural number as a String. -/
def natStr (n : Nat) : String := ⟨natDigits n⟩

/-- One clock reading, the fields of the datetime value obtained by
the single datetime.now() call of generate variables, together with
the whole second Unix time that now.timestamp() yields for it. -/
structure PyDateTime where
  year : Nat
  month : Nat
  day : Nat
  hour : Nat
  minute : Nat
  second : Nat
  micro : Nat
  epochSec : Nat
deriving DecidableEq

/-- Embedding of now.strftime with the year, month, day, T, hour,
minute, second format of the TIMESTAMP value. -/
def fmt_timestamp (t : PyDateTime) : String :=
  natStr t.year ++ "-" ++ pad2 t.month ++ "-" ++ pad2 t.day ++ "T" ++
    pad2 t.hour ++ ":" ++ pad2 t.minute ++ ":" ++ pad2 t.second

/-- Embedding of now.strftime with the date format of DATE. -/
def fmt_date (t : PyDateTime) : String :=
  natStr t.year ++ "-" ++ pad2 t.month ++ "-" ++ pad2 t.day

/-- Embedding of now.strftime with the time format of TIME. -/
def fmt_time (t : PyDateTime) : String :=
  pad2 t.hour ++ ":" ++ pad2 t.minute ++ ":" ++ pad2 t.second

/-- Python slicing with upper bound minus three, dropping the last
three characters, applied by the source to the microsecond timestamp
to keep millisecond precision. -/
def dropLast3 (s : String) : String := ⟨s.data.take (s.data.length - 3)⟩

/-- Embedding of the TIMESTAMP_MS value: the microsecond strftime
rendering of the same clock reading with the last three characters
sliced off. -/
def fmt_timestamp_ms (t : PyDateTime) : String :=
  dropLast3 (natStr t.year ++ "-" ++ pad2 t.month ++ "-" ++ pad2 t.day ++ "T" ++
    pad2 t.hour ++ ":" ++ pad2 t.minute ++ ":" ++ pad2 t.second ++ "." ++ pad6 t.micro)

/-- Entropy drawn by one generate variables call: the three
independently generated UUID renderings and the three random tokens,
abstracted as the strings the random sources produced. -/
structure Entropy where
  uuid : String
  uuidUpper : String
  uuidNoDash : String
  randomId : String
  randomAlpha : String
  randomAlphanum : String
deriving DecidableEq

/-- Embedding of generate variables: the association list of the
eleven fixed keys in the insertion order of the source dictionary,
the time derived values all computed from the single clock reading
now and the random values taken from the entropy record. -/
def generate_variables (now : PyDateTime) (e : Entropy) : List (String × String) :=
  [("UUID", e.uuid), ("UUID_UPPER", e.uuidUpper), ("UUID_NO_DASH", e.uuidNoDash),
   ("TIMESTAMP", fmt_timestamp now), ("TIMESTAMP_MS", fmt_timestamp_ms now),
   ("DATE", fmt_date now), ("TIME", fmt_time now), ("EPOCH", natStr now.epochSec),
   ("RANDOM_ID", e.randomId), ("RANDOM_ALPHA", e.randomAlpha),
   ("RANDOM_ALPHANUM", e.randomAlphanum)]

/-- Result the HTTP transport hands back to the try block of send
soap request: either a received response with its status code and
reason text, or one of the exception kinds the handlers distinguish,
in the order the except clauses test them. -/
inductive TransportResult where
  | response (status : Nat) (reason : String)
  | timeoutExc
  | connectionExc
  | otherExc (desc : String)
deriving DecidableEq

/-- Injection outcome of one dispatch, the classification the spec
names; in the source each variant is a distinct log branch. -/
inductive Outcome where
  | success
  | httpError (status : Nat) (reason : String)
  | timeout
  | connectionFailure
  | unexpectedError (desc : String)
deriving DecidableEq

/-- Embedding of send soap request: the try block observes the
transport result; a received status of 200 returns True, any other
received status logs the warning branch and returns False, the
Timeout handler, the ConnectionError handler and the final catch all
Exception handler each return False. The first component is the
branch taken, the second the returned boolean. -/
def send_soap_request : TransportResult → Outcome × Bool
  | .response status reason =>
    if status = 200 then (.success, true) else (.httpError status reason, false)
  | .timeoutExc => (.timeout, false)
  | .connectionExc => (.connectionFailure, false)
  | .otherExc d => (.unexpectedError d, false)

/-- UTF-8 encoding of one code point, the byte sequence Python str
encode produces per character. -/
def utf8EncodeChar (n : Nat) : List Nat :=
  if n < 128 then [n]
  else if n < 2048 then [192 + n / 64, 128 + n % 64]
  else if n < 65536 then [224 + n / 4096, 128 + n / 64 % 64, 128 + n % 64]
  else [240 + n / 262144, 128 + n / 4096 % 64, 128 + n / 64 % 64, 128 + n % 64]

/-- UTF-8 encoding of a string, modelling content.encode. -/
def utf8Bytes (s : String) : List Nat :=
  (s.data.map (fun c => utf8EncodeChar c.toNat)).flatten

/-- HTTP request as handed to session.post: method, URL, header
list, body bytes and the timeout in seconds. -/
structure HttpRequest where
  method : String
  url : String
  headers : List (String × String)
  body : List Nat
  timeoutSec : Nat
deriving DecidableEq

/-- Embedding of the session.post call of send soap request: a POST
to the endpoint with the two headers built just above it and the
UTF-8 encoded content as body. The SOAPAction value is the two quote
characters, the conventional wire form of an empty SOAPAction. -/
def build_soap_request (endpoint : String) (timeout : Nat) (content : String) : HttpRequest :=
  { method := "POST"
    url := endpoint
    headers := [("Content-Type", "text/xml; charset=utf-8"), ("SOAPAction", "\"\"")]
    body := utf8Bytes content
    timeoutSec := timeout }

/-- Request dispatched by one inject single call: the selected
template content with the generated variables substituted, built into
the POST request. -/
def inject_single_request (endpoint : String) (timeout : Nat) (template : String)
    (now : PyDateTime) (e : Entropy) : HttpRequest :=
  build_soap_request endpoint timeout (replace_variables template (generate_variables now e))

/-- What one inject single call does inside the batch loop: either
the template was read and the dispatch returned the boolean ok, or
reading the template file raised, in which case load soap content
logs the error and re-raises the exception. -/
inductive AttemptResult where
  | sent (ok : Bool)
  | readError
deriving DecidableEq

/-- Errors that can escape inject multiple: a template read error
re-raised through inject single, or the ZeroDivisionError of the
success rate computation. The invalidCount variant is modelled from
the spec, which posits a dedicated invalid count validation error;
the source produces no such error and has no such check. -/
inductive BatchError where
  | readError (attempt : Nat)
  | zeroDivision
  | invalidCount
deriving DecidableEq

/-- Statistics dictionary of inject multiple. -/
structure Stats where
  success : Nat
  failed : Nat
  total : Nat
deriving DecidableEq

/-- Mutable state of the batch loop: the two counters of the stats
dictionary plus instrumentation counting the sleep calls made and the
attempts that ran to completion. -/
structure BatchState where
  success : Nat
  failed : Nat
  sleeps : Nat
  attempts : Nat
deriving DecidableEq

/-- Result of a completed inject multiple call: the returned stats
plus the instrumentation counters. -/
structure RunResult where
  stats : Stats
  sleeps : Nat
  attempts : Nat
deriving DecidableEq

/-- Embedding of the for loop of inject multiple, processing
attempts i, i+1, ... with r attempts left to run. Each iteration runs
inject single: a read error propagates immediately; otherwise the
success or failed counter is incremented and, when the delay is
positive and the attempt is not the last one, time.sleep is called
once. -/
def runFrom (delay : ℚ) (att : Nat → AttemptResult) :
    Nat → Nat → BatchState → Except BatchError BatchState
  | 0, _, st => .ok st
  | r + 1, i, st =>
    match att i with
    | .readError => .error (.readError i)
    | .sent ok =>
      runFrom delay att r (i + 1)
        { success := st.success + (if ok then 1 else 0)
          failed := st.failed + (if ok then 0 else 1)
          sleeps := st.sleeps + (if 0 < delay ∧ 0 < r then 1 else 0)
          attempts := st.attempts + 1 }

/-- Embedding of inject multiple: the stats dictionary starts with
both counters zero and total already set to count, the loop runs the
count attempts, and afterwards the success rate success divided by
total is computed, which raises ZeroDivisionError exactly when the
requested count is zero; otherwise the stats are returned. -/
def inject_multiple (count : Nat) (delay : ℚ) (att : Nat → AttemptResult) :
    Except BatchError RunResult :=
  match runFrom delay att count 1 ⟨0, 0, 0, 0⟩ with
  | .error e => .error e
  | .ok st =>
    if count = 0 then .error .zeroDivision
    else .ok ⟨⟨st.success, st.failed, count⟩, st.sleeps, st.attempts⟩

/-- Per attempt results of a concrete batch in which reading the
template for attempt two raises and every other attempt dispatches
successfully. -/
def cAttempt : Nat → AttemptResult := fun i => if i = 2 then .readError else .sent true

theorem splitAllL_ne_nil (fuel : Nat) : ∀ (s pat : List Char), splitAllL fuel s pat ≠ [] := by
  induction fuel with
  | zero => intro s pat; simp [splitAllL]
  | succ f ih =>
    intro s pat
    cases s with
    | nil => simp [splitAllL]
    | cons c rest =>
      simp only [splitAllL]
      split
      · simp
      · cases h : splitAllL f rest pat with
        | nil => simp
        | cons p ps => simp

theorem replaceAllL_eq_intercalate (fuel : Nat) :
    ∀ (s pat rep : List Char),
      replaceAllL fuel s pat rep = intercalateL rep (splitAllL fuel s pat) := by
  induction fuel with
  | zero => intro s pat rep; simp [replaceAllL, splitAllL, intercalateL]
  | succ f ih =>
    intro s pat rep
    cases s with
    | nil => simp [replaceAllL, splitAllL, intercalateL]
    | cons c rest =>
      by_cases hc : (isPrefL pat (c :: rest) && !pat.isEmpty) = true
      · rw [replaceAllL, splitAllL, if_pos hc, if_pos hc]
        cases h2 : splitAllL f (List.drop (pat.length - 1) rest) pat with
        | nil => exact absurd h2 (splitAllL_ne_nil f _ pat)
        | cons p ps =>
          rw [ih _ pat rep, h2]
          simp [intercalateL]
      · rw [replaceAllL, splitAllL, if_neg hc, if_neg hc]
        cases h2 : splitAllL f rest pat with
        | nil => exact absurd h2 (splitAllL_ne_nil f rest pat)
        | cons p ps =>
          rw [ih rest pat rep, h2]
          cases ps with
          | nil => simp [intercalateL]
          | cons q qs => simp [intercalateL]

theorem replaceAllL_of_not_contains (fuel : Nat) :
    ∀ (s pat rep : List Char), containsL pat s = false → replaceAllL fuel s pat rep = s := by
  induction fuel with
  | zero => intro s pat rep _; rfl
  | succ f ih =>
    intro s pat rep h
    cases s with
    | nil => rfl
    | cons c rest =>
      rw [containsL, Bool.or_eq_false_iff] at h
      rw [replaceAllL, if_neg, ih rest pat rep h.2]
      simp [h.1]

theorem strReplace_of_not_contains (s pat rep : String)
    (h : containsL pat.data s.data = false) : strReplace s pat rep = s := by
  unfold strReplace
  rw [replaceAllL_of_not_contains _ _ _ _ h]

theorem strReplace_eq_singlePass (s pat rep : String) :
    strReplace s pat rep = singlePassReplace s pat rep := by
  unfold strReplace singlePassReplace
  rw [replaceAllL_eq_intercalate]

theorem isPrefL_close_eq : ∀ (k w : List Char), '\x7d' ∉ w →
    isPrefL (k ++ ['\x7d', '\x7d']) (w ++ ['\x7d', '\x7d']) = true → k = w := by
  intro k
  induction k with
  | nil =>
    intro w hw h
    cases w with
    | nil => rfl
    | cons c w2 =>
      simp only [List.nil_append, List.cons_append, isPrefL, Bool.and_eq_true,
        beq_iff_eq] at h
      exact absurd (List.mem_cons_self c w2) (h.1 ▸ hw)
  | cons a k2 ih =>
    intro w hw h
    cases w with
    | nil =>
      exfalso
      cases k2 with
      | nil => simp [isPrefL] at h
      | cons b k3 => cases k3 <;> simp [isPrefL] at h
    | cons c w2 =>
      simp only [List.cons_append, isPrefL, Bool.and_eq_true, beq_iff_eq] at h
      have hw2 : '\x7d' ∉ w2 := fun hm => hw (List.mem_cons_of_mem c hm)
      have : k2 = w2 := ih w2 hw2 h.2
      rw [h.1, this]

theorem containsL_head_notMem (a : Char) (p : List Char) :
    ∀ (t : List Char), a ∉ t → containsL (a :: p) t = false := by
  intro t
  induction t with
  | nil => intro _; simp [containsL, isPrefL]
  | cons c t2 ih =>
    intro h
    have hac : a ≠ c := fun he => h (he ▸ List.mem_cons_self c t2)
    have h2 : a ∉ t2 := fun hm => h (List.mem_cons_of_mem c hm)
    simp [containsL, isPrefL, ih h2, hac]

theorem containsL_braced_eq (k w : List Char) (hb : '\x7b' ∉ w) (hc : '\x7d' ∉ w)
    (h : containsL ('\x7b' :: '\x7b' :: (k ++ ['\x7d', '\x7d']))
      ('\x7b' :: '\x7b' :: (w ++ ['\x7d', '\x7d'])) = true) : k = w := by
  rw [containsL, containsL, Bool.or_eq_true, Bool.or_eq_true] at h
  rcases h with h1 | h2 | h3
  · simp only [isPrefL, Bool.and_eq_true, beq_iff_eq] at h1
    exact isPrefL_close_eq k w hc h1.2.2
  · exfalso
    simp only [isPrefL, Bool.and_eq_true, beq_iff_eq] at h2
    cases w with
    | nil => simp [isPrefL] at h2
    | cons c w2 =>
      have : c ≠ '\x7b' := fun he => hb (he ▸ List.mem_cons_self c w2)
      simp only [List.cons_append, isPrefL, Bool.and_eq_true, beq_iff_eq] at h2
      exact this h2.2.1.symm
  · exfalso
    have hnot : '\x7b' ∉ w ++ ['\x7d', '\x7d'] := by
      intro hm
      rcases List.mem_append.mp hm with hm1 | hm2
      · exact hb hm1
      · simp at hm2
    rw [containsL_head_notMem _ _ _ hnot] at h3
    exact Bool.false_ne_true h3

theorem runFrom_sent (delay : ℚ) (b : Nat → Bool) :
    ∀ (r i : Nat) (st : BatchState),
      ∃ fin : BatchState,
        runFrom delay (fun j => AttemptResult.sent (b j)) r i st = .ok fin ∧
        fin.success + fin.failed = st.success + st.failed + r ∧
        fin.attempts = st.attempts + r ∧
        fin.sleeps = st.sleeps + (if 0 < delay then r - 1 else 0) := by
  intro r
  induction r with
  | zero =>
    intro i st
    exact ⟨st, rfl, by omega, by omega, by simp⟩
  | succ r ih =>
    intro i st
    simp only [runFrom]
    obtain ⟨fin, h1, h2, h3, h4⟩ := ih (i + 1)
      { success := st.success + (if b i then 1 else 0)
        failed := st.failed + (if b i then 0 else 1)
        sleeps := st.sleeps + (if 0 < delay ∧ 0 < r then 1 else 0)
        attempts := st.attempts + 1 }
    refine ⟨fin, h1, ?_, ?_, ?_⟩
    · simp only at h2
      cases hb : b i <;> simp [hb] at h2 <;> omega
    · simp only at h3
      omega
    · simp only at h4
      by_cases hdelay : 0 < delay <;> by_cases hr : 0 < r <;>
        simp [hdelay, hr] at h4 ⊢ <;> omega

theorem runFrom_readError (delay : ℚ) (att : Nat → AttemptResult) (j : Nat)
    (hj : att j = .readError) :
    ∀ (r i : Nat) (st : BatchState), i ≤ j → j < i + r →
      (∀ i2, i ≤ i2 → i2 < j → att i2 ≠ .readError) →
      runFrom delay att r i st = .error (.readError j) := by
  intro r
  induction r with
  | zero =>
    intro i st h1 h2 _
    exact absurd h2 (by omega)
  | succ r ih =>
    intro i st h1 h2 hprev
    rcases Nat.lt_or_ge i j with hij | hij
    · cases hatt : att i with
      | readError => exact absurd hatt (hprev i (le_refl i) hij)
      | sent ok =>
        simp only [runFrom, hatt]
        exact ih (i + 1) _ (by omega) (by omega) (fun i2 hi2 hlt => hprev i2 (by omega) hlt)
    · have hieq : i = j := le_antisymm h1 hij
      subst hieq
      simp only [runFrom, hj]

/-- C1: for every count of at least one and every sequence of per
attempt outcomes, inject multiple returns statistics in which success
plus failed equals total and total equals the requested count,
however many attempts failed. -/
theorem inject_multiple_stats_total (count : Nat) (h : 1 ≤ count) (delay : ℚ)
    (b : Nat → Bool) :
    ∃ res : RunResult,
      inject_multiple count delay (fun j => AttemptResult.sent (b j)) = .ok res ∧
      res.stats.success + res.stats.failed = res.stats.total ∧
      res.stats.total = count := by
  obtain ⟨fin, h1, h2, h3, h4⟩ := runFrom_sent delay b count 1 ⟨0, 0, 0, 0⟩
  refine ⟨⟨⟨fin.success, fin.failed, count⟩, fin.sleeps, fin.attempts⟩, ?_, ?_, rfl⟩
  · unfold inject_multiple
    simp only [h1]
    rw [if_neg (by omega)]
  · simp only at h2
    simpa using h2

theorem inject_multiple_stats_total_witness :
    1 ≤ 3 ∧ ∃ res : RunResult,
      inject_multiple 3 0 (fun j => AttemptResult.sent ((fun _ => true) j)) = .ok res ∧
      res.stats.success + res.stats.failed = res.stats.total ∧
      res.stats.total = 3 :=
  ⟨by omega, inject_multiple_stats_total 3 (by omega) 0 (fun _ => true)⟩

/-- C6: for every count of at least one and positive delay, inject
multiple sleeps exactly between consecutive attempts and never after
the last one, performing exactly count minus one sleep calls. -/
theorem inject_multiple_delay_sleeps (count : Nat) (h : 1 ≤ count) (delay : ℚ)
    (hd : 0 < delay) (b : Nat → Bool) :
    ∃ res : RunResult,
      inject_multiple count delay (fun j => AttemptResult.sent (b j)) = .ok res ∧
      res.sleeps = count - 1 := by
  obtain ⟨fin, h1, h2, h3, h4⟩ := runFrom_sent delay b count 1 ⟨0, 0, 0, 0⟩
  refine ⟨⟨⟨fin.success, fin.failed, count⟩, fin.sleeps, fin.attempts⟩, ?_, ?_⟩
  · unfold inject_multiple
    simp only [h1]
    rw [if_neg (by omega)]
  · rw [if_pos hd] at h4
    simpa using h4

theorem inject_multiple_delay_sleeps_witness :
    (1 ≤ 3 ∧ (0 : ℚ) < 1 / 10) ∧ ∃ res : RunResult,
      inject_multiple 3 (1 / 10) (fun j => AttemptResult.sent ((fun _ => true) j)) = .ok res ∧
      res.sleeps = 3 - 1 :=
  ⟨⟨by omega, by norm_num⟩,
    inject_multiple_delay_sleeps 3 (by omega) (1 / 10) (by norm_num) (fun _ => true)⟩

/-- C5 counterexample: with count zero the batch runner does fail,
but the error it fails with is the ZeroDivisionError of the success
rate computation, not the InvalidCount validation error the claim
names; the source performs no count validation at all. -/
theorem inject_multiple_zero_cex :
    inject_multiple 0 1 (fun _ => AttemptResult.sent true) = .error .zeroDivision ∧
    inject_multiple 0 1 (fun _ => AttemptResult.sent true) ≠ .error .invalidCount := by
  constructor
  · rfl
  · intro h
    rw [show inject_multiple 0 1 (fun _ => AttemptResult.sent true) =
      .error .zeroDivision from rfl] at h
    simp at h

/-- C5 amended: calling inject multiple with count zero performs no
injection attempt and fails, but with the ZeroDivisionError raised
when the success rate success divided by total is computed after the
empty loop, not with a dedicated InvalidCount validation error. The
second conjunct shows the loop body never runs for count zero. -/
theorem inject_multiple_zero_zero_division (delay : ℚ) (att : Nat → AttemptResult) :
    inject_multiple 0 delay att = .error .zeroDivision ∧
    runFrom delay att 0 1 ⟨0, 0, 0, 0⟩ = .ok ⟨0, 0, 0, 0⟩ :=
  ⟨rfl, rfl⟩

/-- C4 counterexample: in a batch of three attempts whose second
attempt hits a template read error, inject multiple does not absorb
the error into the statistics: it aborts with the propagated read
error and returns no statistics at all, so the remaining attempt
never executes. -/
theorem inject_multiple_read_error_cex :
    inject_multiple 3 0 cAttempt = .error (.readError 2) ∧
    ∀ res : RunResult, inject_multiple 3 0 cAttempt ≠ .ok res := by
  constructor
  · rfl
  · intro res h
    rw [show inject_multiple 3 0 cAttempt = .error (.readError 2) from rfl] at h
    exact Except.noConfusion h

/-- C4 amended: an error while reading the template file of attempt
j is logged and re-raised by load soap content, caught nowhere in
inject single or inject multiple, so the whole batch aborts at
attempt j with that error: later attempts never run and no statistics
are returned. -/
theorem inject_multiple_read_error_aborts (count : Nat) (delay : ℚ)
    (att : Nat → AttemptResult) (j : Nat) (h1 : 1 ≤ j) (h2 : j ≤ count)
    (hj : att j = .readError) (hprev : ∀ i, i < j → att i ≠ .readError) :
    inject_multiple count delay att = .error (.readError j) := by
  unfold inject_multiple
  rw [runFrom_readError delay att j hj count 1 ⟨0, 0, 0, 0⟩ h1 (by omega)
    (fun i2 _ hlt => hprev i2 hlt)]

/-- C10: applying the substitutor with an empty variable mapping is
the identity, as the source loop over the mapping items runs zero
iterations and returns the content unchanged. -/
theorem replace_variables_empty_id (content : String) :
    replace_variables content [] = content := rfl

/-- C3 counterexample: with template open braces A close braces and
the mapping binding A to the text open braces B close braces and then
B to x, the value substituted for A is itself expanded by the later
pass for B, so the output is x instead of the literal placeholder
text the claim requires. -/
theorem replace_variables_rescan_cex :
    replace_variables "\x7b\x7bA\x7d\x7d" [("A", "\x7b\x7bB\x7d\x7d"), ("B", "x")] = "x" ∧
    ("x" : String) ≠ "\x7b\x7bB\x7d\x7d" := by
  decide

/-- C3 amended: substitution is one single pass replacement per key,
applied sequentially in mapping iteration order: within the pass of
one key the inserted value is spliced verbatim between the pieces of
the scanned text and is never rescanned by that same pass, but the
passes of later keys scan the whole intermediate text, so a
substituted value containing the placeholder of a later key is
expanded by that later pass. -/
theorem replace_variables_per_key_single_pass (content : String)
    (vars : List (String × String)) :
    replace_variables content vars =
      vars.foldl
        (fun acc kv => singlePassReplace acc ("\x7b\x7b" ++ kv.1 ++ "\x7d\x7d") kv.2)
        content := by
  induction vars generalizing content with
  | nil => rfl
  | cons kv vs ih =>
    have h1 : replace_variables content (kv :: vs) =
        replace_variables (strReplace content ("\x7b\x7b" ++ kv.1 ++ "\x7d\x7d") kv.2) vs := rfl
    rw [h1, ih, strReplace_eq_singlePass]
    rfl

/-- C7: the substitutor replaces every fully delimited occurrence of
a key, zero, one or many, leaves placeholders whose name matches no
key verbatim without error, and matches exact delimited tokens only,
so the UUID placeholder is never touched by the longer UUID_UPPER
key. -/
theorem replace_variables_delimited :
    (∀ v : String,
      replace_variables "\x7b\x7bX\x7d\x7d and \x7b\x7bX\x7d\x7d" [("X", v)] =
        v ++ " and " ++ v) ∧
    (∀ vars : List (String × String), (∀ kv ∈ vars, kv.1 ≠ "UNKNOWN") →
      replace_variables "\x7b\x7bUNKNOWN\x7d\x7d" vars = "\x7b\x7bUNKNOWN\x7d\x7d") ∧
    (∀ v : String,
      strReplace "\x7b\x7bUUID\x7d\x7d" "\x7b\x7bUUID_UPPER\x7d\x7d" v = "\x7b\x7bUUID\x7d\x7d") := by
  refine ⟨?_, ?_, ?_⟩
  · intro v
    cases v with
    | mk l =>
      have h1 : replace_variables "\x7b\x7bX\x7d\x7d and \x7b\x7bX\x7d\x7d"
          [("X", String.mk l)] =
          String.mk (l ++ (' ' :: 'a' :: 'n' :: 'd' :: ' ' :: (l ++ []))) := rfl
      have h2 : (String.mk l ++ " and " ++ String.mk l) =
          String.mk ((l ++ (' ' :: 'a' :: 'n' :: 'd' :: ' ' :: [])) ++ l) := rfl
      rw [h1, h2]
      exact congrArg String.mk (by simp)
  · intro vars
    induction vars with
    | nil => intro _; rfl
    | cons kv vs ih =>
      intro h
      have hk : kv.1 ≠ "UNKNOWN" := h kv (List.mem_cons_self kv vs)
      have hstep : strReplace "\x7b\x7bUNKNOWN\x7d\x7d" ("\x7b\x7b" ++ kv.1 ++ "\x7d\x7d") kv.2 =
          "\x7b\x7bUNKNOWN\x7d\x7d" := by
        apply strReplace_of_not_contains
        by_contra hcon
        rw [Bool.not_eq_false] at hcon
        have hshape : containsL ('\x7b' :: '\x7b' :: (kv.1.data ++ ['\x7d', '\x7d']))
            ('\x7b' :: '\x7b' :: ("UNKNOWN".data ++ ['\x7d', '\x7d'])) = true := hcon
        have hdata := containsL_braced_eq kv.1.data "UNKNOWN".data (by decide) (by decide) hshape
        exact hk (congrArg String.mk hdata)
      have hunf : replace_variables "\x7b\x7bUNKNOWN\x7d\x7d" (kv :: vs) =
          replace_variables
            (strReplace "\x7b\x7bUNKNOWN\x7d\x7d" ("\x7b\x7b" ++ kv.1 ++ "\x7d\x7d") kv.2) vs := rfl
      rw [hunf, hstep]
      exact ih (fun kv2 hm => h kv2 (List.mem_cons_of_mem kv hm))
  · intro v
    apply strReplace_of_not_contains
    decide

theorem replace_variables_delimited_witness :
    (∀ kv ∈ [(("UUID" : String), ("x" : String))], kv.1 ≠ "UNKNOWN") ∧
    replace_variables "\x7b\x7bUNKNOWN\x7d\x7d" [("UUID", "x")] = "\x7b\x7bUNKNOWN\x7d\x7d" :=
  ⟨by decide, replace_variables_delimited.2.1 [("UUID", "x")] (by decide)⟩

/-- C2: every call of the dispatcher produces exactly one outcome and
never raises to the caller: a received status 200 is classified as
Success with return value True, any other received status as
HttpError carrying the status and reason with return value False, the
timeout exception as Timeout, the connection exception as
ConnectionFailure and any other exception as UnexpectedError, each
returning False; the classification is a total function, so each
transport result yields exactly one outcome. -/
theorem send_soap_request_classification :
    (∀ reason : String, send_soap_request (.response 200 reason) = (.success, true)) ∧
    (∀ (status : Nat) (reason : String), status ≠ 200 →
      send_soap_request (.response status reason) = (.httpError status reason, false)) ∧
    send_soap_request .timeoutExc = (.timeout, false) ∧
    send_soap_request .connectionExc = (.connectionFailure, false) ∧
    (∀ d : String, send_soap_request (.otherExc d) = (.unexpectedError d, false)) ∧
    (∀ t : TransportResult, ∃! o : Outcome, (send_soap_request t).1 = o) := by
  refine ⟨fun reason => by simp [send_soap_request], ?_, rfl, rfl, fun d => rfl, ?_⟩
  · intro status reason hs
    simp [send_soap_request, hs]
  · intro t
    exact ⟨(send_soap_request t).1, rfl, fun o ho => ho.symm⟩

theorem send_soap_request_classification_witness :
    (500 : Nat) ≠ 200 ∧
    send_soap_request (.response 500 "Internal Server Error") =
      (.httpError 500 "Internal Server Error", false) :=
  ⟨by omega, send_soap_request_classification.2.1 500 "Internal Server Error" (by omega)⟩

/-- C8: every dispatched request is a POST to the endpoint carrying
the Content-Type text/xml charset utf-8 header and the SOAPAction
header whose value is the quoted empty action, the wire form the
source comments call an empty SOAPAction, with the UTF-8 encoded
substituted template text as body and the caller supplied timeout. -/
theorem inject_single_request_shape (endpoint : String) (timeout : Nat) (template : String)
    (now : PyDateTime) (e : Entropy) :
    inject_single_request endpoint timeout template now e =
      { method := "POST"
        url := endpoint
        headers := [("Content-Type", "text/xml; charset=utf-8"), ("SOAPAction", "\"\"")]
        body := utf8Bytes (replace_variables template (generate_variables now e))
        timeoutSec := timeout } := rfl

theorem strData_append (a b : String) : (a ++ b).data = a.data ++ b.data := rfl

theorem natDigits_ne_nil (n : Nat) : natDigits n ≠ [] := by
  unfold natDigits natDigitsGo
  by_cases h : n < 10
  · simp [h]
  · simp [h, List.append_eq_nil]

theorem pad6_data_len (n : Nat) : 6 ≤ (pad6 n).data.length := by
  have h := natDigits_ne_nil n
  have h1 : 1 ≤ (natDigits n).length := by
    cases hd : natDigits n with
    | nil => exact absurd hd h
    | cons a l => simp
  show 6 ≤ (zeroPad 6 n).length
  rw [zeroPad, List.length_append, List.length_replicate]
  omega

theorem take_sub3_append (P m : List Char) (hm : 7 ≤ m.length) :
    ∃ rest : List Char,
      (P ++ m).take ((P ++ m).length - 3) = P ++ rest ∧ rest ≠ [] := by
  refine ⟨m.take (m.length - 3), ?_, ?_⟩
  · have hlen : (P ++ m).length - 3 = P.length + (m.length - 3) := by
      simp only [List.length_append]
      omega
    rw [hlen, List.take_append]
  · intro hc
    have hlc := congrArg List.length hc
    simp [List.length_take] at hlc
    omega

/-- C9: all time derived values of one generate variables call come
from the single clock reading now: the TIMESTAMP value equals the
DATE value, the letter T and the TIME value concatenated, and the
TIMESTAMP value is a proper initial segment of the TIMESTAMP_MS
value. -/
theorem generate_variables_time_coherent (now : PyDateTime) (e : Entropy) :
    ∃ ts tms d ti : String,
      (generate_variables now e).lookup "TIMESTAMP" = some ts ∧
      (generate_variables now e).lookup "TIMESTAMP_MS" = some tms ∧
      (generate_variables now e).lookup "DATE" = some d ∧
      (generate_variables now e).lookup "TIME" = some ti ∧
      ts = d ++ "T" ++ ti ∧
      (∃ rest : List Char, tms.data = ts.data ++ rest ∧ rest ≠ []) := by
  refine ⟨fmt_timestamp now, fmt_timestamp_ms now, fmt_date now, fmt_time now,
    rfl, rfl, rfl, rfl, ?_, ?_⟩
  · apply String.ext
    simp [fmt_timestamp, fmt_date, fmt_time, strData_append, List.append_assoc]
  · have hq : 6 ≤ (pad6 now.micro).data.length := pad6_data_len now.micro
    have hone : (".".data).length = 1 := rfl
    have hm : 7 ≤ (".".data ++ (pad6 now.micro).data).length := by
      rw [List.length_append]
      omega
    obtain ⟨rest, hr1, hr2⟩ := take_sub3_append (fmt_timestamp now).data
      (".".data ++ (pad6 now.micro).data) hm
    refine ⟨rest, ?_, hr2⟩
    have e1 : fmt_timestamp_ms now = dropLast3 (fmt_timestamp now ++ "." ++ pad6 now.micro) := rfl
    have hdata : (fmt_timestamp_ms now).data =
        ((fmt_timestamp now ++ "." ++ pad6 now.micro).data).take
          ((fmt_timestamp now ++ "." ++ pad6 now.micro).data.length - 3) := by
      rw [e1]
      rfl
    have e2 : (fmt_timestamp now ++ "." ++ pad6 now.micro).data =
        (fmt_timestamp now).data ++ (".".data ++ (pad6 now.micro).data) := by
      rw [strData_append, strData_append, List.append_assoc]
    rw [e2] at hdata
    rw [hdata, hr1]

theorem inject_multiple_read_error_aborts_witness :
    (1 ≤ 2 ∧ 2 ≤ 3 ∧ cAttempt 2 = .readError) ∧
    inject_multiple 3 0 cAttempt = .error (.readError 2) :=
  ⟨⟨by omega, by omega, by decide⟩,
    inject_multiple_read_error_aborts 3 0 cAttempt 2 (by omega) (by omega) (by decide)
      (fun i hi => by interval_cases i <;> decide)⟩

end SoapInj
